import Mathlib

/-!
# Verification of the cmd-args argument parser

A shallow embedding of `cmd-args.hpp` (namespace `CmdArgs`, version 1.1.0):
a command-line argument declaration and parsing utility.  Templates are
embedded at the value universe `CVal` (int / bool / string), matching the
`stringToType` / `typeToString` specializations the library ships.  Machine
`int` is modelled as unbounded `Int` (no claim exercises overflow).
C++ exceptions are modelled with `Except`; the raw `argv` vector is a
`List String`.
-/

/-- `CmdArgs::Visibility`. -/
inductive Visibility where
  | VISIBLE
  | HIDDEN
  | INVISIBLE
deriving DecidableEq, Repr

/-- The spaces skipped by `istream` formatted extraction (C locale `isspace`). -/
def isStreamSpace (c : Char) : Bool :=
  c == ' ' || c == '\t' || c == '\n' || c == '\x0b' || c == '\x0c' || c == '\r'

/-- `std::tolower` on one character (C locale: only `A`-`Z` change). -/
def toLowerChar (c : Char) : Char :=
  if 'A' ≤ c ∧ c ≤ 'Z' then Char.ofNat (c.toNat + 32) else c

/-- `CmdArgs::lowerString`: lower-cases every character of the string. -/
def lowerString (s : String) : String :=
  String.mk (s.data.map toLowerChar)

/-- One step of decimal accumulation used by stream integer extraction. -/
def charsToNat (cs : List Char) : Nat :=
  cs.foldl (fun a c => a * 10 + (c.toNat - 48)) 0

/-- Sign handling of `istream` integer extraction: an optional leading
`-` or `+` is consumed; the Bool records whether the value is negated. -/
def splitSign (cs : List Char) : Bool × List Char :=
  match cs with
  | [] => (false, [])
  | c :: t => if c = '-' then (true, t) else if c = '+' then (false, t) else (false, c :: t)

/-- After the sign, stream extraction reads a run of decimal digits and
fails when there is none; trailing characters are left unread. -/
def readDigits (neg : Bool) (rest : List Char) : Option Int :=
  if (rest.takeWhile Char.isDigit).isEmpty then none
  else some (if neg then -(charsToNat (rest.takeWhile Char.isDigit) : Int)
             else (charsToNat (rest.takeWhile Char.isDigit) : Int))

/-- Core of `stringToType<int>` on the character list: skip leading spaces,
read an optional sign and then a run of decimal digits; fail when no digit
was read (as `convert >> val` does), ignore trailing characters (as stream
extraction does). -/
def stringToTypeIntAux (cs0 : List Char) : Option Int :=
  readDigits (splitSign (cs0.dropWhile isStreamSpace)).1
    (splitSign (cs0.dropWhile isStreamSpace)).2

/-- `stringToType<T>` at `T = int`: `std::istringstream convert{str}; convert >> val`. -/
def stringToTypeInt (s : String) : Option Int :=
  stringToTypeIntAux s.data

/-- `stringToType<bool>` specialization: lower-case the token and accept
exactly `true`, `1`, `false`, `0`. -/
def stringToTypeBool (s : String) : Option Bool :=
  let lstr := lowerString s
  if lstr == "true" || lstr == "1" || lstr == "false" || lstr == "0" then
    some (lstr == "true" || lstr == "1")
  else none

/-- `stringToType<std::string>` specialization: the identity, never fails. -/
def stringToTypeString (s : String) : Option String :=
  some s

/-- A digit value rendered as its decimal character (`'0' + d`). -/
def digitChar : Nat → Char
  | 0 => '0' | 1 => '1' | 2 => '2' | 3 => '3' | 4 => '4'
  | 5 => '5' | 6 => '6' | 7 => '7' | 8 => '8' | _ => '9'

/-- The decimal character run of a natural number, most significant first. -/
def natToChars (n : Nat) : List Char :=
  (if n = 0 then [0] else (Nat.digits 10 n).reverse).map digitChar

/-- `typeToString<T>` at `T = int`: `std::to_string` decimal rendering. -/
def typeToStringInt (v : Int) : String :=
  if v < 0 then String.mk ('-' :: natToChars v.natAbs) else String.mk (natToChars v.natAbs)

/-- `typeToString<bool>` specialization. -/
def typeToStringBool (b : Bool) : String :=
  if b then "true" else "false"

/-- `typeToString<std::string>` specialization: the identity. -/
def typeToStringString (s : String) : String :=
  s

/-- The declared type of an argument's value: the template parameter `T`
restricted to the instantiations the embedding covers. -/
inductive CTy where
  | tint
  | tbool
  | tstr
deriving DecidableEq, Repr

/-- A typed value: the union of the covered template instantiations. -/
inductive CVal where
  | vint (i : Int)
  | vbool (b : Bool)
  | vstr (s : String)
deriving DecidableEq, Repr

/-- `stringToType<T>` dispatched by the declared type. -/
def stringToType : CTy → String → Option CVal
  | .tint, s => (stringToTypeInt s).map CVal.vint
  | .tbool, s => (stringToTypeBool s).map CVal.vbool
  | .tstr, s => (stringToTypeString s).map CVal.vstr

/-- `typeToString` dispatched on the value. -/
def typeToString : CVal → String
  | .vint i => typeToStringInt i
  | .vbool b => typeToStringBool b
  | .vstr s => typeToStringString s

/-- The kind-specific fields of the three `Argument` subclasses.
`data = none` models a default-constructed / indeterminate `T data`. -/
inductive ArgPayload where
  | valueA (ty : CTy) (data : Option CVal) (dv : Option CVal) (hasDefault : Bool)
  | implicitA (ty : CTy) (data : Option CVal) (setValue : CVal) (dv : Option CVal) (hasDefault : Bool)
  | flagA (data : Bool)
deriving DecidableEq, Repr

/-- `CmdArgs::Argument` and its subclasses, flattened: the base-class fields
plus the subclass payload.  `shortName` / `longName` are stored already
dash-prefixed, as the `Argument` constructor leaves them. -/
structure Argument where
  shortName : String
  longName : String
  description : String
  visibility : Visibility
  isSet_ : Bool
  isDefined_ : Bool
  payload : ArgPayload
deriving DecidableEq, Repr

/-- The `Argument` base constructor's short-name transform:
`(!shortName.empty()) ? ("-" + shortName) : ("")`. -/
def dashShort (s : String) : String :=
  if s ≠ "" then "-" ++ s else ""

/-- The `Argument` base constructor's long-name transform:
`(!longName.empty()) ? ("--" + longName) : ""`. -/
def dashLong (l : String) : String :=
  if l ≠ "" then "--" ++ l else ""

/-- `ValueArg<T>` constructor without a default value. -/
def ValueArg.ctorNoDefault (vis : Visibility) (s l d : String) (ty : CTy) : Argument :=
  { shortName := dashShort s, longName := dashLong l, description := d, visibility := vis,
    isSet_ := false, isDefined_ := false,
    payload := .valueA ty none none false }

/-- `ValueArg<T>` constructor with a default value: sets `data` and `dv` to
the default and marks the argument defined. -/
def ValueArg.ctorWithDefault (vis : Visibility) (s l d : String) (ty : CTy) (dv : CVal) : Argument :=
  { shortName := dashShort s, longName := dashLong l, description := d, visibility := vis,
    isSet_ := false, isDefined_ := true,
    payload := .valueA ty (some dv) (some dv) true }

/-- `ImplicitArg<T>` constructor without a default value: only `setValue`
is initialised. -/
def ImplicitArg.ctorNoDefault (vis : Visibility) (s l d : String) (ty : CTy) (sv : CVal) : Argument :=
  { shortName := dashShort s, longName := dashLong l, description := d, visibility := vis,
    isSet_ := false, isDefined_ := false,
    payload := .implicitA ty none sv none false }

/-- `ImplicitArg<T>` constructor with a default value: `data` starts at the
default and the argument starts defined.  Note, straight from the source:
the constructor parameter `dv` shadows the member `dv`, so the member is
never assigned and stays indeterminate (`none`); only `data` receives the
default. -/
def ImplicitArg.ctorWithDefault (vis : Visibility) (s l d : String) (ty : CTy) (sv dv : CVal) : Argument :=
  { shortName := dashShort s, longName := dashLong l, description := d, visibility := vis,
    isSet_ := false, isDefined_ := true,
    payload := .implicitA ty (some dv) sv none true }

/-- `FlagArg` constructor: `data` starts false and the flag starts defined. -/
def FlagArg.ctor (vis : Visibility) (s l d : String) : Argument :=
  { shortName := dashShort s, longName := dashLong l, description := d, visibility := vis,
    isSet_ := false, isDefined_ := true,
    payload := .flagA false }

/-- The two error shapes `parseArg` can raise (both `std::invalid_argument`
in C++, distinguished by their message): a Value Argument's name with no
value after it, and a following token that fails conversion. -/
inductive ParseError where
  | missingValue (shortName longName : String)
  | invalidValue (shortName longName : String) (given : String)
deriving DecidableEq, Repr

/-- `arg[0] == '-'` on a C string: the empty string's first byte is `'\0'`,
so it does NOT begin with a dash. -/
def headIsDash (s : String) : Bool :=
  match s.data with
  | '-' :: _ => true
  | _ => false

/-- `parseArg(const char *arg)`, by subclass.  Note, straight from the
source: `ValueArg::parseArg` assigns `data` but never touches `isSet_` or
`isDefined_`; `ImplicitArg::parseArg` treats a dash-initial next token as
absent; `FlagArg::parseArg` ignores its argument entirely. -/
def Argument.parseArg (a : Argument) (arg : String) : Except ParseError Argument :=
  match a.payload with
  | .valueA ty _ dv hd =>
    if headIsDash arg then
      .error (.missingValue a.shortName a.longName)
    else
      match stringToType ty arg with
      | some v => .ok { a with payload := .valueA ty (some v) dv hd }
      | none => .error (.invalidValue a.shortName a.longName arg)
  | .implicitA ty _ sv dv hd =>
    if headIsDash arg then
      .ok { a with payload := .implicitA ty (some sv) sv dv hd, isDefined_ := true }
    else
      match stringToType ty arg with
      | some v =>
        .ok { a with payload := .implicitA ty (some v) sv dv hd, isDefined_ := true, isSet_ := true }
      | none => .error (.invalidValue a.shortName a.longName arg)
  | .flagA _ => .ok { a with payload := .flagA true, isSet_ := true }

/-- `value()`: the argument's current data (`none` models reading an
indeterminate value). -/
def Argument.value (a : Argument) : Option CVal :=
  match a.payload with
  | .valueA _ data _ _ => data
  | .implicitA _ data _ _ _ => data
  | .flagA b => some (.vbool b)

/-- `getDefaultAsString()`, by subclass (used only by the help renderer). -/
def Argument.getDefaultAsString (a : Argument) : String :=
  match a.payload with
  | .valueA _ data _ hd =>
    if hd then "=" ++ (match data with | some v => typeToString v | none => "") else ""
  | .implicitA _ _ sv _ _ => "=arg(=" ++ typeToString sv ++ ")"
  | .flagA _ => ""

/-- Insertion into the `std::map<std::string, shared_ptr>`: `operator[]`
overwrites an existing key's value, otherwise appends a binding. -/
def mapInsert : List (String × Nat) → String → Nat → List (String × Nat)
  | [], k, v => [(k, v)]
  | (k1, v1) :: rest, k, v =>
    if k1 = k then (k, v) :: rest else (k1, v1) :: mapInsert rest k v

/-- `map::find`: the value bound to the key, when present. -/
def mapFind : List (String × Nat) → String → Option Nat
  | [], _ => none
  | (k1, v1) :: rest, k => if k1 = k then some v1 else mapFind rest k

/-- `CmdArgs::ArgParser`: the arena of registered arguments (targets of the
C++ `shared_ptr`s, addressed by index), the name map, and the two
visibility-ordered lists (holding indices into the arena). -/
structure ArgParser where
  args : List Argument
  arguments : List (String × Nat)
  visibleArgs : List Nat
  hiddenArgs : List Nat
deriving DecidableEq, Repr

/-- A freshly constructed `ArgParser`. -/
def emptyArgParser : ArgParser :=
  { args := [], arguments := [], visibleArgs := [], hiddenArgs := [] }

/-- The single registration-time error
(`"Command-line arguments must have at least one name"`). -/
inductive AddError where
  | invalidDeclaration
deriving DecidableEq, Repr

/-- `ArgParser::add`: reject an argument whose (already dash-prefixed)
names are both empty, otherwise insert one map entry per non-empty name,
append to the visibility list selected by the argument's visibility, and
return the handle (the new arena index). -/
def ArgParser.add (p : ArgParser) (arg : Argument) : Except AddError (ArgParser × Nat) :=
  if arg.shortName = "" ∧ arg.longName = "" then .error .invalidDeclaration
  else
    let idx := p.args.length
    let m1 := if arg.shortName ≠ "" then mapInsert p.arguments arg.shortName idx else p.arguments
    let m2 := if arg.longName ≠ "" then mapInsert m1 arg.longName idx else m1
    let vis := if arg.visibility = .VISIBLE then p.visibleArgs ++ [idx] else p.visibleArgs
    let hid := if arg.visibility = .HIDDEN then p.hiddenArgs ++ [idx] else p.hiddenArgs
    .ok ({ args := p.args ++ [arg], arguments := m2, visibleArgs := vis, hiddenArgs := hid }, idx)

/-- Dereference a handle: the argument stored at an arena index. -/
def getArg (p : ArgParser) (i : Nat) : Option Argument :=
  p.args.get? i

/-- Store a mutated argument back at its arena index. -/
def setArg (p : ArgParser) (i : Nat) (a : Argument) : ArgParser :=
  { p with args := p.args.set i a }

/-- Pair every token with its follower (`argv[i+1]`), the last one with the
empty sentinel the parser uses (`next = ""`). -/
def withNext : List String → List (String × String)
  | [] => []
  | t :: rest => (t, match rest with | [] => "" | n :: _ => n) :: withNext rest

/-- One iteration of the `parseCmd` loop body on token `tok` with follower
`next`: skip empty tokens, look the token up in the name map, and dispatch
to the matched argument's `parseArg`.  Unmatched tokens are ignored. -/
def parseStep (p : ArgParser) (tok next : String) : Except ParseError ArgParser :=
  if tok = "" then .ok p
  else
    match mapFind p.arguments tok with
    | none => .ok p
    | some i =>
      match getArg p i with
      | none => .ok p
      | some a => (a.parseArg next).map (setArg p i)

/-- Run the loop over the remaining (token, next) pairs.  A thrown
exception aborts the loop; the state already mutated is returned as is. -/
def runSteps (p : ArgParser) : List (String × String) → ArgParser × Option ParseError
  | [] => (p, none)
  | (t, n) :: rest =>
    match parseStep p t n with
    | .ok p1 => runSteps p1 rest
    | .error e => (p, some e)

/-- `ArgParser::parseCmd`: iterate from `argv[1]` (index 0 is the program
path), giving each token its follower, `""` for the last. -/
def ArgParser.parseCmd (p : ArgParser) (argv : List String) : ArgParser × Option ParseError :=
  runSteps p (withNext argv.tail)

/-- `std::right << std::setw(w)`: left-pad with spaces to width `w`
(no truncation when already wider). -/
def padToRight (s : String) (w : Nat) : String :=
  String.mk (List.replicate (w - s.length) ' ') ++ s

/-- `std::left << std::setw(w)`: right-pad with spaces to width `w`. -/
def padToLeft (s : String) (w : Nat) : String :=
  s ++ String.mk (List.replicate (w - s.length) ' ')

/-- One help-table row: two spaces, the right-aligned short name, a comma,
the left-aligned `longName + " " + default`, two spaces, the description. -/
def helpRow (wShort wLongDefault : Nat) (a : Argument) : String :=
  "  " ++ padToRight a.shortName wShort ++ ", "
    ++ padToLeft (a.longName ++ " " ++ a.getDefaultAsString) wLongDefault
    ++ "  " ++ a.description ++ "\n"

/-- The running maxima (`longestShortName`, `longestLongName`,
`longestDefaultValue`) after scanning a list of arguments. -/
def maxWidths (start : Nat × Nat × Nat) (l : List Argument) : Nat × Nat × Nat :=
  l.foldl
    (fun m a =>
      (max m.1 a.shortName.length,
       max m.2.1 a.longName.length,
       max m.2.2 a.getDefaultAsString.length))
    start

/-- `ArgParser::createHelpMessage`: compute the column widths over the
visible arguments (and the hidden ones too when `showHidden`), then render
the visible rows under `[[Allowed Arguments]]` and, when `showHidden`, the
hidden rows under `[[Hidden Arguments]]`. -/
def ArgParser.createHelpMessage (p : ArgParser) (showHidden : Bool) : String :=
  let vis := p.visibleArgs.filterMap (getArg p)
  let hid := p.hiddenArgs.filterMap (getArg p)
  let w0 := maxWidths (0, 0, 0) vis
  let w := if showHidden then maxWidths w0 hid else w0
  "[[Allowed Arguments]]\n"
    ++ String.join (vis.map (helpRow w.1 (w.2.1 + w.2.2 + 1)))
    ++ (if showHidden then
          "[[Hidden Arguments]]\n" ++ String.join (hid.map (helpRow w.1 (w.2.1 + w.2.2 + 1)))
        else "")

/-- Substring test on character lists (used to state what a help message
lists). -/
def listContains (pat : List Char) : List Char → Bool
  | [] => pat.isEmpty
  | c :: rest => pat.isPrefixOf (c :: rest) || listContains pat rest

/-- Substring test on strings. -/
def strContains (s pat : String) : Bool :=
  listContains pat.data s.data

/-- Well-formedness of a parser state, written so that concrete states can
be checked by evaluation: every name-map binding points at an in-range
arena slot holding an argument that actually bears that name, and every
index on the visibility lists is in range.  `ArgParser.add` only ever
builds such states. -/
def wfEntry (p : ArgParser) (kv : String × Nat) : Bool :=
  match getArg p kv.2 with
  | some a => kv.1 == a.shortName || kv.1 == a.longName
  | none => false

def wfParser (p : ArgParser) : Bool :=
  p.arguments.all (wfEntry p)
    && (p.visibleArgs ++ p.hiddenArgs).all (fun i => decide (i < p.args.length))

/-! ## Helper lemmas: decimal rendering and stream extraction -/

lemma digitChar_facts (d : Nat) (hd : d < 10) :
    Char.isDigit (digitChar d) = true ∧ isStreamSpace (digitChar d) = false ∧
    digitChar d ≠ '-' ∧ digitChar d ≠ '+' ∧ (digitChar d).toNat - 48 = d := by
  interval_cases d <;> exact ⟨by decide, by decide, by decide, by decide, by decide⟩

lemma dropWhile_eq_self_of_all {p : Char → Bool} :
    ∀ l : List Char, (∀ c ∈ l, p c = false) → l.dropWhile p = l := by
  intro l h
  cases l with
  | nil => rfl
  | cons c t => simp [List.dropWhile_cons, h c (by simp)]

lemma takeWhile_eq_self_of_all {p : Char → Bool} :
    ∀ l : List Char, (∀ c ∈ l, p c = true) → l.takeWhile p = l := by
  intro l
  induction l with
  | nil => intro; rfl
  | cons c t ih =>
    intro h
    simp only [List.takeWhile_cons, h c (by simp), if_true]
    rw [ih (fun x hx => h x (by simp [hx]))]

lemma splitSign_eq_self (l : List Char) (h : ∀ c ∈ l, c ≠ '-' ∧ c ≠ '+') :
    splitSign l = (false, l) := by
  cases l with
  | nil => rfl
  | cons c t =>
    obtain ⟨h1, h2⟩ := h c (by simp)
    simp [splitSign, h1, h2]

lemma foldl_digits_congr :
    ∀ (ds : List Nat) (a : Nat), (∀ d ∈ ds, d < 10) →
      ds.foldl (fun x d => x * 10 + ((digitChar d).toNat - 48)) a =
        ds.foldl (fun x d => x * 10 + d) a := by
  intro ds
  induction ds with
  | nil => intro a _; rfl
  | cons d t ih =>
    intro a h
    simp only [List.foldl_cons]
    rw [(digitChar_facts d (h d (by simp))).2.2.2.2]
    exact ih _ (fun x hx => h x (by simp [hx]))

lemma charsToNat_map_digitChar (ds : List Nat) (h : ∀ d ∈ ds, d < 10) :
    charsToNat (ds.map digitChar) = ds.foldl (fun a d => a * 10 + d) 0 := by
  unfold charsToNat
  rw [List.foldl_map]
  exact foldl_digits_congr ds 0 h

lemma foldl_reverse_ofDigits :
    ∀ L : List Nat, L.reverse.foldl (fun a d => a * 10 + d) 0 = Nat.ofDigits 10 L := by
  intro L
  induction L with
  | nil => rfl
  | cons d t ih =>
    rw [List.reverse_cons, List.foldl_append, ih, Nat.ofDigits_cons]
    simp only [List.foldl_cons, List.foldl_nil]
    ring

lemma natToChars_digits (n : Nat) :
    ∃ ds : List Nat, natToChars n = ds.map digitChar ∧ ds ≠ [] ∧
      (∀ d ∈ ds, d < 10) ∧ ds.foldl (fun a d => a * 10 + d) 0 = n := by
  by_cases h0 : n = 0
  · subst h0
    exact ⟨[0], rfl, by simp, by simp, rfl⟩
  · refine ⟨(Nat.digits 10 n).reverse, by simp [natToChars, h0], ?_, ?_, ?_⟩
    · simp [Nat.digits_ne_nil_iff_ne_zero.mpr h0]
    · intro d hd
      exact Nat.digits_lt_base (by norm_num) (List.mem_reverse.mp hd)
    · rw [foldl_reverse_ofDigits, Nat.ofDigits_digits]

lemma natToChars_allfacts (n : Nat) :
    ∀ c ∈ natToChars n,
      Char.isDigit c = true ∧ isStreamSpace c = false ∧ c ≠ '-' ∧ c ≠ '+' := by
  intro c hc
  obtain ⟨ds, hmap, _, hlt, _⟩ := natToChars_digits n
  rw [hmap] at hc
  obtain ⟨d, hd, rfl⟩ := List.mem_map.mp hc
  obtain ⟨f1, f2, f3, f4, _⟩ := digitChar_facts d (hlt d hd)
  exact ⟨f1, f2, f3, f4⟩

lemma charsToNat_natToChars (n : Nat) : charsToNat (natToChars n) = n := by
  obtain ⟨ds, hmap, _, hlt, hval⟩ := natToChars_digits n
  rw [hmap, charsToNat_map_digitChar ds hlt]
  exact hval

lemma readDigits_natToChars (neg : Bool) (n : Nat) :
    readDigits neg (natToChars n) = some (if neg then -(n : Int) else (n : Int)) := by
  have htake : (natToChars n).takeWhile Char.isDigit = natToChars n :=
    takeWhile_eq_self_of_all _ (fun c hc => (natToChars_allfacts n c hc).1)
  have hne : natToChars n ≠ [] := by
    obtain ⟨ds, hmap, hned, _, _⟩ := natToChars_digits n
    rw [hmap]
    simpa using hned
  unfold readDigits
  rw [htake, if_neg (by simpa using hne), charsToNat_natToChars]

lemma stringToTypeIntAux_natToChars (n : Nat) :
    stringToTypeIntAux (natToChars n) = some (n : Int) := by
  have hdrop : (natToChars n).dropWhile isStreamSpace = natToChars n :=
    dropWhile_eq_self_of_all _ (fun c hc => (natToChars_allfacts n c hc).2.1)
  have hsign : splitSign (natToChars n) = (false, natToChars n) :=
    splitSign_eq_self _ (fun c hc => (natToChars_allfacts n c hc).2.2)
  unfold stringToTypeIntAux
  rw [hdrop, hsign]
  simpa using readDigits_natToChars false n

lemma stringToTypeIntAux_neg_natToChars (n : Nat) :
    stringToTypeIntAux ('-' :: natToChars n) = some (-(n : Int)) := by
  have hdrop : ('-' :: natToChars n).dropWhile isStreamSpace = '-' :: natToChars n := by
    apply dropWhile_eq_self_of_all
    intro c hc
    rcases List.mem_cons.mp hc with h | h
    · subst h; decide
    · exact (natToChars_allfacts n c h).2.1
  have hsign : splitSign ('-' :: natToChars n) = (true, natToChars n) := by
    simp [splitSign]
  unfold stringToTypeIntAux
  rw [hdrop, hsign]
  simpa using readDigits_natToChars true n

lemma stringToTypeInt_roundtrip (v : Int) : stringToTypeInt (typeToStringInt v) = some v := by
  by_cases hv : v < 0
  · have hdata : (typeToStringInt v).data = '-' :: natToChars v.natAbs := by
      simp [typeToStringInt, hv]
    unfold stringToTypeInt
    rw [hdata, stringToTypeIntAux_neg_natToChars]
    have habs : (v.natAbs : Int) = -v := by omega
    rw [habs]
    simp
  · have hdata : (typeToStringInt v).data = natToChars v.natAbs := by
      simp [typeToStringInt, hv]
    unfold stringToTypeInt
    rw [hdata, stringToTypeIntAux_natToChars]
    have habs : (v.natAbs : Int) = v := by omega
    rw [habs]

/-- The bool and string round trips, companions to
`stringToTypeInt_roundtrip` for the conversion layer. -/
theorem stringToTypeBoolString_roundtrip :
    (∀ b : Bool, stringToTypeBool (typeToStringBool b) = some b)
      ∧ (∀ s : String, stringToTypeString (typeToStringString s) = some s) :=
  ⟨fun b => by cases b <;> rfl, fun s => rfl⟩

/-! ## Helper lemmas: arena access and the name map -/

lemma listGet_set_ne {α : Type} :
    ∀ (l : List α) (i j : Nat) (a : α), i ≠ j → (l.set i a).get? j = l.get? j := by
  intro l
  induction l with
  | nil => intro i j a _; rfl
  | cons x t ih =>
    intro i j a hij
    cases i with
    | zero =>
      cases j with
      | zero => exact absurd rfl hij
      | succ j => rfl
    | succ i =>
      cases j with
      | zero => rfl
      | succ j => exact ih i j a (fun h => hij (by rw [h]))

lemma listGet_set_eq {α : Type} :
    ∀ (l : List α) (i : Nat) (a : α), i < l.length → (l.set i a).get? i = some a := by
  intro l
  induction l with
  | nil => intro i a h; exact absurd h (by simp)
  | cons x t ih =>
    intro i a h
    cases i with
    | zero => rfl
    | succ i => exact ih i a (by simpa using h)

lemma listGet_some_lt {α : Type} :
    ∀ (l : List α) (i : Nat) (a : α), l.get? i = some a → i < l.length := by
  intro l
  induction l with
  | nil => intro i a h; cases h
  | cons x t ih =>
    intro i a h
    cases i with
    | zero => simp
    | succ i => simpa using ih i a h

lemma listGet_append_left {α : Type} :
    ∀ (l1 l2 : List α) (i : Nat), i < l1.length → (l1 ++ l2).get? i = l1.get? i := by
  intro l1
  induction l1 with
  | nil => intro l2 i h; exact absurd h (by simp)
  | cons x t ih =>
    intro l2 i h
    cases i with
    | zero => rfl
    | succ i => exact ih l2 i (by simpa using h)

lemma mapFind_mem : ∀ (m : List (String × Nat)) (k : String) (i : Nat),
    mapFind m k = some i → (k, i) ∈ m := by
  intro m
  induction m with
  | nil => intro k i h; cases h
  | cons kv rest ih =>
    obtain ⟨k1, v1⟩ := kv
    intro k i h
    unfold mapFind at h
    by_cases hk : k1 = k
    · rw [if_pos hk] at h
      cases h
      subst hk
      exact List.mem_cons_self _ _
    · rw [if_neg hk] at h
      exact List.mem_cons_of_mem _ (ih k i h)

lemma wf_mapFind {p : ArgParser} {t : String} {i : Nat}
    (hwf : wfParser p = true) (h : mapFind p.arguments t = some i) :
    ∃ c, getArg p i = some c ∧ (t = c.shortName ∨ t = c.longName) := by
  have hmem := mapFind_mem p.arguments t i h
  have hall := (List.all_eq_true.mp (Bool.and_elim_left hwf)) (t, i) hmem
  unfold wfEntry at hall
  rcases hg : getArg p i with _ | c <;> simp only [hg] at hall
  · cases hall
  · refine ⟨c, rfl, ?_⟩
    rcases Bool.or_eq_true_iff.mp hall with h1 | h1
    · exact Or.inl (by simpa using h1)
    · exact Or.inr (by simpa using h1)

lemma wf_visIdx {p : ArgParser} {i : Nat}
    (hwf : wfParser p = true) (h : i ∈ p.visibleArgs ++ p.hiddenArgs) :
    i < p.args.length := by
  have := (List.all_eq_true.mp (Bool.and_elim_right hwf)) i h
  simpa using this

/-! ## Helper lemmas: `parseArg` -/

lemma parseArg_ok_base {a a2 : Argument} {arg : String}
    (h : a.parseArg arg = .ok a2) :
    a2.shortName = a.shortName ∧ a2.longName = a.longName ∧
    a2.description = a.description ∧ a2.visibility = a.visibility := by
  rcases hp : a.payload with ⟨ty, data, dv, hd⟩ | ⟨ty, data, sv, dv, hd⟩ | b
  · simp only [Argument.parseArg, hp] at h
    split at h
    · cases h
    · rcases hs : stringToType ty arg with _ | v <;> rw [hs] at h
      · cases h
      · cases h
        exact ⟨rfl, rfl, rfl, rfl⟩
  · simp only [Argument.parseArg, hp] at h
    split at h
    · cases h
      exact ⟨rfl, rfl, rfl, rfl⟩
    · rcases hs : stringToType ty arg with _ | v <;> rw [hs] at h
      · cases h
      · cases h
        exact ⟨rfl, rfl, rfl, rfl⟩
  · simp only [Argument.parseArg, hp] at h
    cases h
    exact ⟨rfl, rfl, rfl, rfl⟩

lemma parseArg_flagA {a : Argument} {b : Bool} (hp : a.payload = .flagA b) (arg : String) :
    a.parseArg arg = .ok { a with payload := .flagA true, isSet_ := true } := by
  simp only [Argument.parseArg, hp]

lemma parseArg_valueA_never_sets {a a2 : Argument} {arg : String}
    {ty : CTy} {data dv : Option CVal} {hd : Bool}
    (hp : a.payload = .valueA ty data dv hd) (h : a.parseArg arg = .ok a2) :
    a2.isSet_ = a.isSet_ ∧ a2.isDefined_ = a.isDefined_ := by
  simp only [Argument.parseArg, hp] at h
  split at h
  · cases h
  · rcases hs : stringToType ty arg with _ | v <;> rw [hs] at h
    · cases h
    · cases h
      exact ⟨rfl, rfl⟩

/-! ## Helper lemmas: `parseStep` -/

lemma parseStep_ok_frame {p p2 : ArgParser} {t n : String}
    (h : parseStep p t n = .ok p2) :
    p2.arguments = p.arguments ∧ p2.visibleArgs = p.visibleArgs ∧
    p2.hiddenArgs = p.hiddenArgs ∧ p2.args.length = p.args.length := by
  unfold parseStep at h
  split at h
  · cases h
    exact ⟨rfl, rfl, rfl, rfl⟩
  · rcases hf : mapFind p.arguments t with _ | i <;> simp only [hf] at h
    · cases h
      exact ⟨rfl, rfl, rfl, rfl⟩
    · rcases hg : getArg p i with _ | b <;> simp only [hg] at h
      · cases h
        exact ⟨rfl, rfl, rfl, rfl⟩
      · rcases hpa : b.parseArg n with e | b2 <;> simp only [hpa, Except.map] at h
        · cases h
        · cases h
          exact ⟨rfl, rfl, rfl, by simp [setArg]⟩

lemma parseStep_ok_untouched {p p2 : ArgParser} {t n : String} {idx : Nat} {a : Argument}
    (hwf : wfParser p = true) (hget : getArg p idx = some a)
    (hts : t ≠ a.shortName) (htl : t ≠ a.longName)
    (h : parseStep p t n = .ok p2) :
    getArg p2 idx = some a := by
  unfold parseStep at h
  split at h
  · cases h
    exact hget
  · rcases hf : mapFind p.arguments t with _ | i <;> simp only [hf] at h
    · cases h
      exact hget
    · rcases hg : getArg p i with _ | b <;> simp only [hg] at h
      · cases h
        exact hget
      · rcases hpa : b.parseArg n with e | b2 <;> simp only [hpa, Except.map] at h
        · cases h
        · cases h
          obtain ⟨c, hc, hname⟩ := wf_mapFind hwf hf
          rw [hg] at hc
          cases hc
          have hne : i ≠ idx := by
            intro he
            subst he
            rw [hget] at hg
            cases hg
            rcases hname with h1 | h1
            · exact hts h1
            · exact htl h1
          show (p.args.set i b2).get? idx = some a
          rw [listGet_set_ne _ _ _ _ hne]
          exact hget

lemma wfEntry_setArg {p : ArgParser} {i : Nat} {b b2 : Argument}
    (hg : getArg p i = some b)
    (hsn : b2.shortName = b.shortName) (hln : b2.longName = b.longName)
    (kv : String × Nat) (hold : wfEntry p kv = true) :
    wfEntry (setArg p i b2) kv = true := by
  unfold wfEntry at hold ⊢
  by_cases hij : i = kv.2
  · have hlt := listGet_some_lt _ _ _ hg
    have hset : getArg (setArg p i b2) kv.2 = some b2 := by
      show (p.args.set i b2).get? kv.2 = some b2
      rw [← hij]
      exact listGet_set_eq _ _ _ hlt
    have hgk : getArg p kv.2 = some b := by rw [← hij]; exact hg
    simp only [hset]
    simp only [hgk] at hold
    rw [hsn, hln]
    exact hold
  · have hset : getArg (setArg p i b2) kv.2 = getArg p kv.2 := by
      show (p.args.set i b2).get? kv.2 = p.args.get? kv.2
      exact listGet_set_ne _ _ _ _ hij
    rw [hset]
    exact hold

lemma parseStep_ok_wf {p p2 : ArgParser} {t n : String}
    (hwf : wfParser p = true) (h : parseStep p t n = .ok p2) :
    wfParser p2 = true := by
  unfold parseStep at h
  split at h
  · cases h
    exact hwf
  · rcases hf : mapFind p.arguments t with _ | i <;> simp only [hf] at h
    · cases h
      exact hwf
    · rcases hg : getArg p i with _ | b <;> simp only [hg] at h
      · cases h
        exact hwf
      · rcases hpa : b.parseArg n with e | b2 <;> simp only [hpa, Except.map] at h
        · cases h
        · cases h
          obtain ⟨hsn, hln, _, _⟩ := parseArg_ok_base hpa
          unfold wfParser at hwf ⊢
          rw [Bool.and_eq_true] at hwf ⊢
          obtain ⟨hw1, hw2⟩ := hwf
          constructor
          · rw [List.all_eq_true] at hw1 ⊢
            intro kv hkv
            exact wfEntry_setArg hg hsn hln kv (hw1 kv hkv)
          · rw [List.all_eq_true] at hw2 ⊢
            intro i2 h2
            have := hw2 i2 h2
            simpa [setArg] using this

/-! ## Helper lemmas: `runSteps` -/

lemma runSteps_frame :
    ∀ (ps : List (String × String)) (p : ArgParser),
      (runSteps p ps).1.arguments = p.arguments ∧
      (runSteps p ps).1.visibleArgs = p.visibleArgs ∧
      (runSteps p ps).1.hiddenArgs = p.hiddenArgs ∧
      (runSteps p ps).1.args.length = p.args.length := by
  intro ps
  induction ps with
  | nil => intro p; exact ⟨rfl, rfl, rfl, rfl⟩
  | cons tn rest ih =>
    intro p
    obtain ⟨t, n⟩ := tn
    rw [show runSteps p ((t, n) :: rest) = (match parseStep p t n with
          | .ok p1 => runSteps p1 rest
          | .error e => (p, some e)) from rfl]
    rcases hs : parseStep p t n with e | p1 <;> simp only [hs]
    · simp
    · obtain ⟨h1, h2, h3, h4⟩ := parseStep_ok_frame hs
      obtain ⟨i1, i2, i3, i4⟩ := ih p1
      exact ⟨i1.trans h1, i2.trans h2, i3.trans h3, i4.trans h4⟩

lemma runSteps_wf :
    ∀ (ps : List (String × String)) (p : ArgParser), wfParser p = true →
      wfParser (runSteps p ps).1 = true := by
  intro ps
  induction ps with
  | nil => intro p h; exact h
  | cons tn rest ih =>
    intro p hwf
    obtain ⟨t, n⟩ := tn
    show wfParser (match parseStep p t n with
          | .ok p1 => runSteps p1 rest
          | .error e => (p, some e)).1 = true
    rcases hs : parseStep p t n with e | p1 <;> simp only [hs]
    · exact hwf
    · exact ih p1 (parseStep_ok_wf hwf hs)

lemma runSteps_untouched {idx : Nat} {a : Argument} :
    ∀ (ps : List (String × String)) (p : ArgParser), wfParser p = true →
      getArg p idx = some a →
      (∀ tn ∈ ps, tn.1 ≠ a.shortName ∧ tn.1 ≠ a.longName) →
      getArg (runSteps p ps).1 idx = some a := by
  intro ps
  induction ps with
  | nil => intro p _ hget _; exact hget
  | cons tn rest ih =>
    intro p hwf hget habs
    obtain ⟨t, n⟩ := tn
    show getArg (match parseStep p t n with
          | .ok p1 => runSteps p1 rest
          | .error e => (p, some e)).1 idx = some a
    rcases hs : parseStep p t n with e | p1 <;> simp only [hs]
    · exact hget
    · obtain ⟨h1, h2⟩ := habs (t, n) (List.mem_cons_self _ _)
      exact ih p1 (parseStep_ok_wf hwf hs)
        (parseStep_ok_untouched hwf hget h1 h2 hs)
        (fun x hx => habs x (List.mem_cons_of_mem _ hx))

lemma runSteps_append :
    ∀ (l1 l2 : List (String × String)) (p : ArgParser),
      runSteps p (l1 ++ l2) =
        match runSteps p l1 with
        | (p1, none) => runSteps p1 l2
        | (p1, some e) => (p1, some e) := by
  intro l1
  induction l1 with
  | nil => intro l2 p; rfl
  | cons tn rest ih =>
    intro l2 p
    obtain ⟨t, n⟩ := tn
    rw [show ((t, n) :: rest) ++ l2 = (t, n) :: (rest ++ l2) from rfl]
    rw [show runSteps p ((t, n) :: (rest ++ l2)) = (match parseStep p t n with
          | .ok p1 => runSteps p1 (rest ++ l2)
          | .error e => (p, some e)) from rfl]
    rw [show runSteps p ((t, n) :: rest) = (match parseStep p t n with
          | .ok p1 => runSteps p1 rest
          | .error e => (p, some e)) from rfl]
    rcases hs : parseStep p t n with e | p1 <;> simp only [hs]
    exact ih l2 p1

lemma runSteps_error_split :
    ∀ (ps : List (String × String)) (p pf : ArgParser) (e : ParseError),
      runSteps p ps = (pf, some e) →
      ∃ pre tn post, ps = pre ++ tn :: post ∧
        runSteps p pre = (pf, none) ∧ parseStep pf tn.1 tn.2 = .error e := by
  intro ps
  induction ps with
  | nil => intro p pf e h; cases h
  | cons tn rest ih =>
    intro p pf e h
    obtain ⟨t, n⟩ := tn
    rw [show runSteps p ((t, n) :: rest) = (match parseStep p t n with
          | .ok p1 => runSteps p1 rest
          | .error e => (p, some e)) from rfl] at h
    rcases hs : parseStep p t n with e1 | p1 <;> rw [hs] at h
    · cases h
      exact ⟨[], (t, n), rest, rfl, rfl, hs⟩
    · obtain ⟨pre, tn1, post, hsplit, hrun, hstep⟩ := ih p1 pf e h
      refine ⟨(t, n) :: pre, tn1, post, by rw [hsplit, List.cons_append], ?_, hstep⟩
      show (match parseStep p t n with
            | .ok p2 => runSteps p2 pre
            | .error e => (p, some e)) = (pf, none)
      rw [hs]
      exact hrun

/-! ## Helper lemmas: flag dispatch and token splitting -/

lemma parseStep_flag_hit {p : ArgParser} {t : String} (n : String) {idx : Nat}
    {a : Argument} {b : Bool}
    (ht : t ≠ "") (hf : mapFind p.arguments t = some idx)
    (hg : getArg p idx = some a) (hp : a.payload = .flagA b) :
    parseStep p t n = .ok (setArg p idx { a with payload := .flagA true, isSet_ := true }) := by
  unfold parseStep
  rw [if_neg ht]
  simp only [hf, hg, parseArg_flagA hp, Except.map]

lemma parseStep_ok_flagAt {p p2 : ArgParser} {t n : String} {idx : Nat} {a : Argument} {b : Bool}
    (hg : getArg p idx = some a) (hp : a.payload = .flagA b)
    (h : parseStep p t n = .ok p2) :
    ∃ a2 b2, getArg p2 idx = some a2 ∧ a2.payload = .flagA b2 ∧ (b = true → b2 = true) := by
  unfold parseStep at h
  split at h
  · cases h
    exact ⟨a, b, hg, hp, fun hb => hb⟩
  · rcases hf : mapFind p.arguments t with _ | i <;> simp only [hf] at h
    · cases h
      exact ⟨a, b, hg, hp, fun hb => hb⟩
    · rcases hga : getArg p i with _ | c <;> simp only [hga] at h
      · cases h
        exact ⟨a, b, hg, hp, fun hb => hb⟩
      · rcases hpa : c.parseArg n with e | c2 <;> simp only [hpa, Except.map] at h
        · cases h
        · cases h
          by_cases hij : i = idx
          · subst hij
            rw [hg] at hga
            cases hga
            rw [parseArg_flagA hp n] at hpa
            cases hpa
            have hlt := listGet_some_lt _ _ _ hg
            refine ⟨{ a with payload := .flagA true, isSet_ := true }, true, ?_, rfl, fun _ => rfl⟩
            show (p.args.set i { a with payload := .flagA true, isSet_ := true }).get? i
              = some { a with payload := .flagA true, isSet_ := true }
            exact listGet_set_eq _ _ _ hlt
          · refine ⟨a, b, ?_, hp, fun hb => hb⟩
            show (p.args.set i c2).get? idx = some a
            rw [listGet_set_ne _ _ _ _ hij]
            exact hg

lemma runSteps_flagAt {idx : Nat} :
    ∀ (ps : List (String × String)) (p : ArgParser) (a : Argument) (b : Bool),
      getArg p idx = some a → a.payload = .flagA b →
      ∃ a2 b2, getArg (runSteps p ps).1 idx = some a2 ∧ a2.payload = .flagA b2 ∧
        (b = true → b2 = true) := by
  intro ps
  induction ps with
  | nil => intro p a b hg hp; exact ⟨a, b, hg, hp, fun hb => hb⟩
  | cons tn rest ih =>
    intro p a b hg hp
    obtain ⟨t, n⟩ := tn
    rw [show runSteps p ((t, n) :: rest) = (match parseStep p t n with
          | .ok p1 => runSteps p1 rest
          | .error e => (p, some e)) from rfl]
    rcases hs : parseStep p t n with e | p1 <;> simp only [hs]
    · exact ⟨a, b, hg, hp, fun hb => hb⟩
    · obtain ⟨a1, b1, hg1, hp1, hmono1⟩ := parseStep_ok_flagAt hg hp hs
      obtain ⟨a2, b2, hg2, hp2, hmono2⟩ := ih p1 a1 b1 hg1 hp1
      exact ⟨a2, b2, hg2, hp2, fun hb => hmono2 (hmono1 hb)⟩

lemma withNext_mem_split {t : String} :
    ∀ l : List String, t ∈ l →
      ∃ pre n post, withNext l = pre ++ (t, n) :: post := by
  intro l
  induction l with
  | nil => intro h; cases h
  | cons x rest ih =>
    intro h
    by_cases hx : t = x
    · subst hx
      exact ⟨[], _, withNext rest, rfl⟩
    · have hmem : t ∈ rest := by
        rcases List.mem_cons.mp h with h1 | h1
        · exact absurd h1 hx
        · exact h1
      obtain ⟨pre, n, post, hsplit⟩ := ih hmem
      cases rest with
      | nil => cases hmem
      | cons y tail =>
        refine ⟨(x, y) :: pre, n, post, ?_⟩
        rw [show withNext (x :: y :: tail) = (x, y) :: withNext (y :: tail) from rfl]
        rw [hsplit, List.cons_append]

/-- Decidable equality for `Except`, used to evaluate registration
results on concrete inputs. -/
instance {e a : Type} [DecidableEq e] [DecidableEq a] : DecidableEq (Except e a) := fun x y =>
  match x, y with
  | .error u, .error v =>
    if h : u = v then .isTrue (by rw [h]) else .isFalse (fun hc => by cases hc; exact h rfl)
  | .ok u, .ok v =>
    if h : u = v then .isTrue (by rw [h]) else .isFalse (fun hc => by cases hc; exact h rfl)
  | .error u, .ok v => .isFalse (fun hc => Except.noConfusion hc)
  | .ok u, .error v => .isFalse (fun hc => Except.noConfusion hc)

/-! ## Small extraction lemmas used by the claim theorems -/

lemma value_flagA {a : Argument} {b : Bool} (hp : a.payload = .flagA b) :
    a.value = some (.vbool b) := by
  unfold Argument.value
  rw [hp]

lemma withNext_mem_fst :
    ∀ (l : List String) (tn : String × String), tn ∈ withNext l → tn.1 ∈ l := by
  intro l
  induction l with
  | nil => intro tn h; cases h
  | cons x rest ih =>
    intro tn h
    cases rest with
    | nil =>
      rw [show withNext [x] = [(x, "")] from rfl] at h
      rcases List.mem_cons.mp h with h1 | h1
      · rw [h1]
        exact List.mem_cons_self _ _
      · cases h1
    | cons y tail =>
      rw [show withNext (x :: y :: tail) = (x, y) :: withNext (y :: tail) from rfl] at h
      rcases List.mem_cons.mp h with h1 | h1
      · rw [h1]
        exact List.mem_cons_self _ _
      · exact List.mem_cons_of_mem _ (ih tn h1)

lemma mem_of_mem_tail {l : List String} {t : String} (h : t ∈ l.tail) : t ∈ l := by
  cases l with
  | nil => cases h
  | cons x rest => exact List.mem_cons_of_mem _ h

/-! ## Claim C1 -/

/-- The registry of the C1 experiment: one string-typed Value Argument
`--val2` without a default, registered through `ArgParser::add`. -/
def pC1str : ArgParser :=
  match emptyArgParser.add (ValueArg.ctorNoDefault .VISIBLE "" "val2" "value argument 2" .tstr) with
  | .ok (p, _) => p
  | .error _ => emptyArgParser

/-- The registry of the C1 experiment, int-typed: one Value Argument
`--val1` without a default. -/
def pC1int : ArgParser :=
  match emptyArgParser.add (ValueArg.ctorNoDefault .VISIBLE "" "val1" "value argument 1" .tint) with
  | .ok (p, _) => p
  | .error _ => emptyArgParser

/-- C1.  Evaluation of the parser at the claim's failing input.  When a
Value Argument's name is the final token, `parseCmd` hands `parseArg` the
empty sentinel, which the `arg[0] == '-'` check does not catch: a
string-typed argument parses WITHOUT any error and silently stores `""`,
and an int-typed argument fails with `InvalidValueError` (empty token), not
`MissingValueError`.  Only the name-immediately-before-a-dash-token case
produces the claimed `MissingValueError`. -/
theorem C1_final_token_behavior :
    ((pC1str.parseCmd ["prog", "--val2"]).2 = none
      ∧ (getArg (pC1str.parseCmd ["prog", "--val2"]).1 0).map Argument.value
          = some (some (.vstr "")))
    ∧ (pC1int.parseCmd ["prog", "--val1"]).2
        = some (.invalidValue "" "--val1" "")
    ∧ (pC1int.parseCmd ["prog", "--val1", "-x"]).2
        = some (.missingValue "" "--val1") :=
  ⟨⟨rfl, rfl⟩, rfl, rfl⟩

/-! ## Claim C2 -/

/-- The registry of the C2 experiment: one int-typed Value Argument
`--val1` with default `3`. -/
def pC2 : ArgParser :=
  match emptyArgParser.add
      (ValueArg.ctorWithDefault .VISIBLE "" "val1" "value argument 1" .tint (.vint 3)) with
  | .ok (p, _) => p
  | .error _ => emptyArgParser

/-- C2.  Evaluation at the claim's failing input.  Parsing
`--val1 25` stores the converted value `25` in `data`, but
`ValueArg::parseArg` contains no assignment to `isSet_`, so `isSet()`
remains `false` (the claim, the spec scenario, and the README's description
of `isSet()` all say it must become `true`). -/
theorem C2_value_parse_never_sets_isSet :
    (pC2.parseCmd ["prog", "--val1", "25"]).2 = none
    ∧ (getArg (pC2.parseCmd ["prog", "--val1", "25"]).1 0).map Argument.value
        = some (some (.vint 25))
    ∧ (getArg (pC2.parseCmd ["prog", "--val1", "25"]).1 0).map Argument.isSet_
        = some false :=
  ⟨rfl, rfl, rfl⟩

/-! ## Claim C3 -/

/-- The registry of the C3 experiment: one int-typed Implicit Argument
`--imp1` with `setValue = 10` and no default. -/
def pC3 : ArgParser :=
  match emptyArgParser.add
      (ImplicitArg.ctorNoDefault .VISIBLE "" "imp1" "implicit argument 1" .tint (.vint 10)) with
  | .ok (p, _) => p
  | .error _ => emptyArgParser

/-- C3.  Evaluation at the claim's failing input.  With the Implicit
Argument's name as the last token, `parseCmd` passes the empty sentinel;
the `arg[0] == '-'` branch (which would apply `setValue`) does not fire, so
conversion of `""` is attempted and fails with `InvalidValueError` — the
argument is left untouched instead of taking `setValue` with
`isDefined() = true`.  The name-followed-by-a-convertible-token half of the
claim does hold: `--imp1 5` stores `5` and sets both flags; and a
dash-initial follower does apply `setValue`. -/
theorem C3_implicit_last_token_behavior :
    ((pC3.parseCmd ["prog", "--imp1"]).2 = some (.invalidValue "" "--imp1" "")
      ∧ getArg (pC3.parseCmd ["prog", "--imp1"]).1 0
          = some (ImplicitArg.ctorNoDefault .VISIBLE "" "imp1" "implicit argument 1"
              .tint (.vint 10)))
    ∧ ((pC3.parseCmd ["prog", "--imp1", "5"]).2 = none
      ∧ (getArg (pC3.parseCmd ["prog", "--imp1", "5"]).1 0).map Argument.value
          = some (some (.vint 5))
      ∧ (getArg (pC3.parseCmd ["prog", "--imp1", "5"]).1 0).map Argument.isSet_
          = some true
      ∧ (getArg (pC3.parseCmd ["prog", "--imp1", "5"]).1 0).map Argument.isDefined_
          = some true)
    ∧ ((pC3.parseCmd ["prog", "--imp1", "-q"]).2 = none
      ∧ (getArg (pC3.parseCmd ["prog", "--imp1", "-q"]).1 0).map Argument.value
          = some (some (.vint 10))
      ∧ (getArg (pC3.parseCmd ["prog", "--imp1", "-q"]).1 0).map Argument.isSet_
          = some false) :=
  ⟨⟨rfl, rfl⟩, ⟨rfl, rfl, rfl, rfl⟩, ⟨rfl, rfl, rfl⟩⟩

/-! ## Claim C4 -/

/-- C4.  A registered Value Argument constructed with a default value, in
any well-formed registry: if no input token equals its dash-prefixed short
or long name, the whole parse leaves the argument exactly as constructed,
so `value()` still returns the default and `isSet()` is `false`. -/
theorem C4_value_default_untouched (p : ArgParser) (idx : Nat)
    (vis : Visibility) (s l d : String) (ty : CTy) (dv : CVal) (argv : List String)
    (hwf : wfParser p = true)
    (hget : getArg p idx = some (ValueArg.ctorWithDefault vis s l d ty dv))
    (habs : ∀ t ∈ argv, t ≠ (ValueArg.ctorWithDefault vis s l d ty dv).shortName
      ∧ t ≠ (ValueArg.ctorWithDefault vis s l d ty dv).longName) :
    getArg (p.parseCmd argv).1 idx = some (ValueArg.ctorWithDefault vis s l d ty dv)
    ∧ (ValueArg.ctorWithDefault vis s l d ty dv).value = some dv
    ∧ (ValueArg.ctorWithDefault vis s l d ty dv).isSet_ = false := by
  refine ⟨?_, rfl, rfl⟩
  unfold ArgParser.parseCmd
  apply runSteps_untouched _ _ hwf hget
  intro tn htn
  exact habs tn.1 (mem_of_mem_tail (withNext_mem_fst _ _ htn))

/-- The registry of the C4 witness: one int-typed Value Argument `--val1`
with default `3`. -/
def pC4 : ArgParser :=
  match emptyArgParser.add
      (ValueArg.ctorWithDefault .VISIBLE "" "val1" "value argument 1" .tint (.vint 3)) with
  | .ok (p, _) => p
  | .error _ => emptyArgParser

/-- Witness for C4 at a concrete registry and input. -/
theorem C4_value_default_untouched_witness :
    getArg (pC4.parseCmd ["prog", "--other", "5"]).1 0
        = some (ValueArg.ctorWithDefault .VISIBLE "" "val1" "value argument 1" .tint (.vint 3))
    ∧ (ValueArg.ctorWithDefault .VISIBLE "" "val1" "value argument 1" .tint (.vint 3)).value
        = some (.vint 3)
    ∧ (ValueArg.ctorWithDefault .VISIBLE "" "val1" "value argument 1" .tint (.vint 3)).isSet_
        = false :=
  C4_value_default_untouched pC4 0 .VISIBLE "" "val1" "value argument 1" .tint (.vint 3)
    ["prog", "--other", "5"] (by decide) (by decide) (by decide)

/-! ## Claim C5 -/

lemma runSteps_append_ok {p p1 : ArgParser} {l1 : List (String × String)}
    (h : runSteps p l1 = (p1, none)) (l2 : List (String × String)) :
    runSteps p (l1 ++ l2) = runSteps p1 l2 := by
  rw [runSteps_append, h]

lemma runSteps_append_err {p p1 : ArgParser} {l1 : List (String × String)} {e : ParseError}
    (h : runSteps p l1 = (p1, some e)) (l2 : List (String × String)) :
    runSteps p (l1 ++ l2) = (p1, some e) := by
  rw [runSteps_append, h]

/-- The registry of the C5 counterexample: an int-typed Value Argument
`-a` (no default) registered before the flag `-f`/`--flag1`. -/
def pC5cex : ArgParser :=
  match emptyArgParser.add (ValueArg.ctorNoDefault .VISIBLE "a" "" "va" .tint) with
  | .ok (p1, _) =>
    (match p1.add (FlagArg.ctor .VISIBLE "f" "flag1" "flag argument 1") with
     | .ok (p2, _) => p2
     | .error _ => p1)
  | .error _ => emptyArgParser

/-- C5 counterexample.  The flag's name `-f` appears in the parsed input
`["prog", "-a", "-f"]`, yet after `parseCmd` the flag's `value()` is still
`false`: the earlier token `-a` raises `MissingValueError` (its follower
`-f` begins with a dash) and parsing aborts before the flag is ever
dispatched.  This refutes the claim as stated, which promises `value()`
true whenever the name appears anywhere in the input. -/
theorem C5_flag_counterexample :
    "-f" ∈ ["prog", "-a", "-f"].tail
    ∧ (pC5cex.parseCmd ["prog", "-a", "-f"]).2 = some (.missingValue "-a" "")
    ∧ (getArg (pC5cex.parseCmd ["prog", "-a", "-f"]).1 1).map Argument.value
        = some (some (.vbool false)) :=
  ⟨by decide, rfl, rfl⟩

/-- C5 (amended).  For a Flag Argument reachable in the name map under a
token `t`: if `t` appears among the parsed tokens and the whole parse
completes without error, `value()` is `true` regardless of what tokens
follow the flag; and if neither of the flag's names occurs anywhere in the
input, the flag is left exactly as constructed, so `value()` is `false`
(whether or not the parse fails elsewhere). -/
theorem C5_flag_presence_amended (vis : Visibility) (s l d : String) (p : ArgParser)
    (idx : Nat) (argv : List String)
    (hwf : wfParser p = true)
    (hget : getArg p idx = some (FlagArg.ctor vis s l d)) :
    ((∀ t, t ≠ "" → mapFind p.arguments t = some idx → t ∈ argv.tail →
        (p.parseCmd argv).2 = none →
        (getArg (p.parseCmd argv).1 idx).map Argument.value = some (some (.vbool true)))
     ∧ ((∀ tok ∈ argv, tok ≠ (FlagArg.ctor vis s l d).shortName
          ∧ tok ≠ (FlagArg.ctor vis s l d).longName) →
        getArg (p.parseCmd argv).1 idx = some (FlagArg.ctor vis s l d))) := by
  constructor
  · intro t ht hfind hmem hok
    obtain ⟨pre, n, post, hsplit⟩ := withNext_mem_split argv.tail hmem
    unfold ArgParser.parseCmd at hok ⊢
    rw [hsplit] at hok ⊢
    rcases hpre : runSteps p pre with ⟨p1, e1⟩
    cases e1 with
    | some e =>
      rw [runSteps_append_err hpre] at hok
      cases hok
    | none =>
      rw [runSteps_append_ok hpre] at hok ⊢
      have hflag0 : (FlagArg.ctor vis s l d).payload = .flagA false := rfl
      obtain ⟨a1, b1, hg1a, hp1, _⟩ := runSteps_flagAt pre p _ false hget hflag0
      rw [hpre] at hg1a
      have hg1 : getArg p1 idx = some a1 := hg1a
      have hmapa := (runSteps_frame pre p).1
      rw [hpre] at hmapa
      have hmap1 : p1.arguments = p.arguments := hmapa
      have hfind1 : mapFind p1.arguments t = some idx := by
        rw [hmap1]
        exact hfind
      have hstep := parseStep_flag_hit n ht hfind1 hg1 hp1
      have hcons : runSteps p1 ((t, n) :: post)
          = runSteps (setArg p1 idx { a1 with payload := .flagA true, isSet_ := true }) post := by
        rw [show runSteps p1 ((t, n) :: post) = (match parseStep p1 t n with
              | .ok p2 => runSteps p2 post
              | .error e => (p1, some e)) from rfl]
        simp only [hstep]
      rw [hcons] at hok ⊢
      have hlt := listGet_some_lt _ _ _ hg1
      have hg2 : getArg (setArg p1 idx { a1 with payload := .flagA true, isSet_ := true }) idx
          = some { a1 with payload := .flagA true, isSet_ := true } := by
        show (p1.args.set idx _).get? idx = _
        exact listGet_set_eq _ _ _ hlt
      obtain ⟨a2, b2, hg3, hp3, hmono⟩ := runSteps_flagAt post _ _ true hg2 rfl
      have hb2 : b2 = true := hmono rfl
      subst hb2
      rw [hg3]
      exact congrArg some (value_flagA hp3)
  · intro habs
    unfold ArgParser.parseCmd
    apply runSteps_untouched _ _ hwf hget
    intro tn htn
    exact habs tn.1 (mem_of_mem_tail (withNext_mem_fst _ _ htn))

/-- The registry of the C5 witness: a single flag `-f`/`--flag1`. -/
def pC5w : ArgParser :=
  match emptyArgParser.add (FlagArg.ctor .VISIBLE "f" "flag1" "flag argument 1") with
  | .ok (p, _) => p
  | .error _ => emptyArgParser

/-- Witness for the amended C5 at a concrete registry: presence (followed
by further tokens) gives `value() = true`, absence leaves `value() = false`. -/
theorem C5_flag_presence_amended_witness :
    (getArg (pC5w.parseCmd ["prog", "-f", "junk"]).1 0).map Argument.value
        = some (some (.vbool true))
    ∧ getArg (pC5w.parseCmd ["prog", "nope"]).1 0
        = some (FlagArg.ctor .VISIBLE "f" "flag1" "flag argument 1") :=
  ⟨(C5_flag_presence_amended .VISIBLE "f" "flag1" "flag argument 1" pC5w 0
      ["prog", "-f", "junk"] (by decide) (by decide)).1 "-f"
      (by decide) (by decide) (by decide) (by decide),
   (C5_flag_presence_amended .VISIBLE "f" "flag1" "flag argument 1" pC5w 0
      ["prog", "nope"] (by decide) (by decide)).2 (by decide)⟩

/-! ## Claim C6 -/

/-- C6.  When `parseCmd` fails, the returned registry state is exactly the
state produced by running all the (token, next) pairs strictly before the
failing one — every mutation made by earlier successfully processed tokens
is retained — and the failing step itself contributes no mutation: the
input splits as `pre ++ tn :: post` with the successful run of `pre`
yielding precisely the final state, on which `tn` raises the error. -/
theorem C6_partial_state_retained (p pf : ArgParser) (argv : List String) (e : ParseError)
    (h : p.parseCmd argv = (pf, some e)) :
    ∃ pre tn post, withNext argv.tail = pre ++ tn :: post ∧
      runSteps p pre = (pf, none) ∧ parseStep pf tn.1 tn.2 = .error e := by
  unfold ArgParser.parseCmd at h
  exact runSteps_error_split _ _ _ _ h

/-- The registry of the C6 witness: the flag `-f`/`--flag1` followed by the
int-typed Value Argument `-a`. -/
def pC6 : ArgParser :=
  match emptyArgParser.add (FlagArg.ctor .VISIBLE "f" "flag1" "flag argument 1") with
  | .ok (p1, _) =>
    (match p1.add (ValueArg.ctorNoDefault .VISIBLE "a" "" "va" .tint) with
     | .ok (p2, _) => p2
     | .error _ => p1)
  | .error _ => emptyArgParser

/-- Witness for C6: parsing `["prog", "-f", "-a"]` sets the flag, then
fails on `-a` (its follower is the empty sentinel, whose conversion to int
fails); the returned state still has the flag set to `true`. -/
theorem C6_partial_state_retained_witness :
    (getArg (pC6.parseCmd ["prog", "-f", "-a"]).1 0).map Argument.value
        = some (some (.vbool true))
    ∧ ∃ pre tn post, withNext (["prog", "-f", "-a"] : List String).tail = pre ++ tn :: post ∧
        runSteps pC6 pre = ((pC6.parseCmd ["prog", "-f", "-a"]).1, none) ∧
        parseStep (pC6.parseCmd ["prog", "-f", "-a"]).1 tn.1 tn.2
          = .error (.invalidValue "-a" "" "") :=
  ⟨rfl, C6_partial_state_retained pC6 _ ["prog", "-f", "-a"]
    (.invalidValue "-a" "" "") (by decide)⟩

/-! ## Claim C8 -/

lemma dashShort_empty_iff (s : String) : dashShort s = "" ↔ s = "" := by
  unfold dashShort
  by_cases h : s = ""
  · subst h
    simp
  · rw [if_pos h]
    constructor
    · intro hc
      have hd : ("-" ++ s).data = ("" : String).data := congrArg String.data hc
      rw [show ("-" ++ s).data = '-' :: s.data from rfl] at hd
      cases hd
    · intro hc
      exact absurd hc h

lemma dashLong_empty_iff (l : String) : dashLong l = "" ↔ l = "" := by
  unfold dashLong
  by_cases h : l = ""
  · subst h
    simp
  · rw [if_pos h]
    constructor
    · intro hc
      have hd : ("--" ++ l).data = ("" : String).data := congrArg String.data hc
      rw [show ("--" ++ l).data = '-' :: '-' :: l.data from rfl] at hd
      cases hd
    · intro hc
      exact absurd hc h

lemma add_empty_names {p : ArgParser} {arg : Argument}
    (h1 : arg.shortName = "") (h2 : arg.longName = "") :
    p.add arg = .error .invalidDeclaration := by
  unfold ArgParser.add
  rw [if_pos ⟨h1, h2⟩]

lemma add_ok_of_nonempty {p : ArgParser} {arg : Argument}
    (h : ¬(arg.shortName = "" ∧ arg.longName = "")) :
    ∃ r, p.add arg = .ok r := by
  unfold ArgParser.add
  rw [if_neg h]
  exact ⟨_, rfl⟩

lemma dash_names_not_both_empty {s l : String} (h : s ≠ "" ∨ l ≠ "") :
    ¬(dashShort s = "" ∧ dashLong l = "") := by
  intro hc
  rcases h with h | h
  · exact h ((dashShort_empty_iff s).mp hc.1)
  · exact h ((dashLong_empty_iff l).mp hc.2)

/-- C8.  Registration of an argument whose constructor was given two empty
names fails with the invalid-declaration error, for every argument kind and
every registry; with at least one non-empty constructor name the dash
prefix makes the stored name non-empty, and registration succeeds
(so the invalid-declaration error is never raised). -/
theorem C8_registration_name_check (p : ArgParser) (vis : Visibility) (d : String)
    (ty : CTy) (sv dv : CVal) :
    (p.add (ValueArg.ctorNoDefault vis "" "" d ty) = .error .invalidDeclaration
     ∧ p.add (ValueArg.ctorWithDefault vis "" "" d ty dv) = .error .invalidDeclaration
     ∧ p.add (ImplicitArg.ctorNoDefault vis "" "" d ty sv) = .error .invalidDeclaration
     ∧ p.add (ImplicitArg.ctorWithDefault vis "" "" d ty sv dv) = .error .invalidDeclaration
     ∧ p.add (FlagArg.ctor vis "" "" d) = .error .invalidDeclaration)
    ∧ (∀ s l : String, s ≠ "" ∨ l ≠ "" →
        (∃ r, p.add (ValueArg.ctorNoDefault vis s l d ty) = .ok r)
        ∧ (∃ r, p.add (ValueArg.ctorWithDefault vis s l d ty dv) = .ok r)
        ∧ (∃ r, p.add (ImplicitArg.ctorNoDefault vis s l d ty sv) = .ok r)
        ∧ (∃ r, p.add (ImplicitArg.ctorWithDefault vis s l d ty sv dv) = .ok r)
        ∧ (∃ r, p.add (FlagArg.ctor vis s l d) = .ok r)) := by
  have hse : dashShort "" = "" := by simp [dashShort]
  have hle : dashLong "" = "" := by simp [dashLong]
  constructor
  · exact ⟨add_empty_names hse hle, add_empty_names hse hle, add_empty_names hse hle,
      add_empty_names hse hle, add_empty_names hse hle⟩
  · intro s l h
    exact ⟨add_ok_of_nonempty (dash_names_not_both_empty h),
      add_ok_of_nonempty (dash_names_not_both_empty h),
      add_ok_of_nonempty (dash_names_not_both_empty h),
      add_ok_of_nonempty (dash_names_not_both_empty h),
      add_ok_of_nonempty (dash_names_not_both_empty h)⟩

/-- Witness for C8 at a concrete registry: both-empty names are rejected;
a single non-empty short name is accepted. -/
theorem C8_registration_name_check_witness :
    emptyArgParser.add (FlagArg.ctor .VISIBLE "" "" "d") = .error .invalidDeclaration
    ∧ ∃ r, emptyArgParser.add (FlagArg.ctor .VISIBLE "f" "" "d") = .ok r :=
  ⟨(C8_registration_name_check emptyArgParser .VISIBLE "d" .tint (.vint 0) (.vint 0)).1.2.2.2.2,
   ((C8_registration_name_check emptyArgParser .VISIBLE "d" .tint (.vint 0) (.vint 0)).2
      "f" "" (Or.inl (by decide))).2.2.2.2⟩

/-! ## Claim C10 -/

/-- A sequence of `parseArg` calls on one argument; a call that throws
leaves the argument unchanged (the C++ mutations all happen after the
points that can throw). -/
def parseArgMany (a : Argument) (nexts : List String) : Argument :=
  nexts.foldl (fun acc nx => match acc.parseArg nx with | .ok a2 => a2 | .error _ => acc) a

/-- The C10 invariant, strengthened with the fact (needed for
preservation) that a flag is always defined: `isSet_` implies `isDefined_`,
and a `FlagArg` has `isDefined_` true. -/
def argInvariant (a : Argument) : Bool :=
  (!a.isSet_ || a.isDefined_)
    && (match a.payload with | .flagA _ => a.isDefined_ | _ => true)

lemma parseArg_preserves_invariant (a : Argument) (nx : String)
    (h : argInvariant a = true) :
    argInvariant (match a.parseArg nx with | .ok a2 => a2 | .error _ => a) = true := by
  rcases hp : a.payload with ⟨ty, data, dv, hd⟩ | ⟨ty, data, sv, dv, hd⟩ | b
  · simp only [Argument.parseArg, hp]
    by_cases hdash : headIsDash nx
    · simp only [if_pos hdash]
      exact h
    · simp only [if_neg hdash]
      rcases hs : stringToType ty nx with _ | v <;> simp only [hs]
      · exact h
      · unfold argInvariant at h ⊢
        simp only [hp] at h
        rw [Bool.and_eq_true] at h
        simpa using h.1
  · simp only [Argument.parseArg, hp]
    by_cases hdash : headIsDash nx
    · simp only [if_pos hdash]
      unfold argInvariant
      simp
    · simp only [if_neg hdash]
      rcases hs : stringToType ty nx with _ | v <;> simp only [hs]
      · exact h
      · unfold argInvariant
        simp
  · simp only [Argument.parseArg, hp]
    unfold argInvariant at h ⊢
    simp only [hp] at h
    rw [Bool.and_eq_true] at h
    have hdef : a.isDefined_ = true := by simpa using h.2
    simp [hdef]

lemma parseArgMany_invariant :
    ∀ (nexts : List String) (a : Argument), argInvariant a = true →
      argInvariant (parseArgMany a nexts) = true := by
  intro nexts
  induction nexts with
  | nil => intro a h; exact h
  | cons nx rest ih =>
    intro a h
    rw [show parseArgMany a (nx :: rest)
          = parseArgMany (match a.parseArg nx with
              | .ok a2 => a2 | .error _ => a) rest from rfl]
    exact ih _ (parseArg_preserves_invariant a nx h)

/-- C10.  For every argument kind and constructor, after construction and
after any sequence of `parseArg` calls (failing calls leave the argument
unchanged), `isSet_` implies `isDefined_` — stated as the boolean
tautology `!isSet_ || isDefined_`. -/
theorem C10_isSet_implies_isDefined (vis : Visibility) (s l d : String) (ty : CTy)
    (sv dv : CVal) (nexts : List String) :
    (!(parseArgMany (ValueArg.ctorNoDefault vis s l d ty) nexts).isSet_
        || (parseArgMany (ValueArg.ctorNoDefault vis s l d ty) nexts).isDefined_) = true
    ∧ (!(parseArgMany (ValueArg.ctorWithDefault vis s l d ty dv) nexts).isSet_
        || (parseArgMany (ValueArg.ctorWithDefault vis s l d ty dv) nexts).isDefined_) = true
    ∧ (!(parseArgMany (ImplicitArg.ctorNoDefault vis s l d ty sv) nexts).isSet_
        || (parseArgMany (ImplicitArg.ctorNoDefault vis s l d ty sv) nexts).isDefined_) = true
    ∧ (!(parseArgMany (ImplicitArg.ctorWithDefault vis s l d ty sv dv) nexts).isSet_
        || (parseArgMany (ImplicitArg.ctorWithDefault vis s l d ty sv dv) nexts).isDefined_) = true
    ∧ (!(parseArgMany (FlagArg.ctor vis s l d) nexts).isSet_
        || (parseArgMany (FlagArg.ctor vis s l d) nexts).isDefined_) = true := by
  refine ⟨?_, ?_, ?_, ?_, ?_⟩
  · have h := parseArgMany_invariant nexts (ValueArg.ctorNoDefault vis s l d ty) rfl
    unfold argInvariant at h
    rw [Bool.and_eq_true] at h
    exact h.1
  · have h := parseArgMany_invariant nexts (ValueArg.ctorWithDefault vis s l d ty dv) rfl
    unfold argInvariant at h
    rw [Bool.and_eq_true] at h
    exact h.1
  · have h := parseArgMany_invariant nexts (ImplicitArg.ctorNoDefault vis s l d ty sv) rfl
    unfold argInvariant at h
    rw [Bool.and_eq_true] at h
    exact h.1
  · have h := parseArgMany_invariant nexts (ImplicitArg.ctorWithDefault vis s l d ty sv dv) rfl
    unfold argInvariant at h
    rw [Bool.and_eq_true] at h
    exact h.1
  · have h := parseArgMany_invariant nexts (FlagArg.ctor vis s l d) rfl
    unfold argInvariant at h
    rw [Bool.and_eq_true] at h
    exact h.1

/-! ## Claim C9 -/

lemma filterMap_getArg_congr {q p : ArgParser} :
    ∀ l : List Nat, (∀ i ∈ l, getArg q i = getArg p i) →
      l.filterMap (getArg q) = l.filterMap (getArg p) := by
  intro l
  induction l with
  | nil => intro _; rfl
  | cons i rest ih =>
    intro h
    rw [List.filterMap_cons, List.filterMap_cons, h i (List.mem_cons_self _ _),
      ih (fun j hj => h j (List.mem_cons_of_mem _ hj))]

lemma add_ok_fields {p : ArgParser} {a : Argument} {r : ArgParser × Nat}
    (h : p.add a = .ok r) :
    r.1.args = p.args ++ [a]
    ∧ r.1.visibleArgs
        = (if a.visibility = .VISIBLE then p.visibleArgs ++ [p.args.length] else p.visibleArgs)
    ∧ r.1.hiddenArgs
        = (if a.visibility = .HIDDEN then p.hiddenArgs ++ [p.args.length] else p.hiddenArgs) := by
  unfold ArgParser.add at h
  split at h
  · cases h
  · cases h
    exact ⟨rfl, rfl, rfl⟩

lemma createHelpMessage_extend {p q : ArgParser} {a1 : Argument} (b : Bool)
    (hargs : q.args = p.args ++ [a1])
    (hvis : q.visibleArgs = p.visibleArgs)
    (hhid : q.hiddenArgs = p.hiddenArgs)
    (hrange : ∀ i ∈ p.visibleArgs ++ p.hiddenArgs, i < p.args.length) :
    q.createHelpMessage b = p.createHelpMessage b := by
  have hg : ∀ i, i < p.args.length → getArg q i = getArg p i := by
    intro i hi
    show q.args.get? i = p.args.get? i
    rw [hargs]
    exact listGet_append_left _ _ _ hi
  have h1 : q.visibleArgs.filterMap (getArg q) = p.visibleArgs.filterMap (getArg p) := by
    rw [hvis]
    exact filterMap_getArg_congr _
      (fun i hi => hg i (hrange i (List.mem_append.mpr (Or.inl hi))))
  have h2 : q.hiddenArgs.filterMap (getArg q) = p.hiddenArgs.filterMap (getArg p) := by
    rw [hhid]
    exact filterMap_getArg_congr _
      (fun i hi => hg i (hrange i (List.mem_append.mpr (Or.inr hi))))
  simp only [ArgParser.createHelpMessage]
  rw [h1, h2]

lemma createHelpMessage_false_extend {p q : ArgParser} {a1 : Argument}
    (hargs : q.args = p.args ++ [a1])
    (hvis : q.visibleArgs = p.visibleArgs)
    (hrange : ∀ i ∈ p.visibleArgs, i < p.args.length) :
    q.createHelpMessage false = p.createHelpMessage false := by
  have hg : ∀ i, i < p.args.length → getArg q i = getArg p i := by
    intro i hi
    show q.args.get? i = p.args.get? i
    rw [hargs]
    exact listGet_append_left _ _ _ hi
  have h1 : q.visibleArgs.filterMap (getArg q) = p.visibleArgs.filterMap (getArg p) := by
    rw [hvis]
    exact filterMap_getArg_congr _ (fun i hi => hg i (hrange i hi))
  have hfalse : ¬(false = true) := by decide
  simp only [ArgParser.createHelpMessage, if_neg hfalse]
  rw [h1]

/-- The registry of the C9 scenario: `-v`/`--visible` Visible and
`-x`/`--extra` Hidden, both string-typed Value Arguments. -/
def pC9scen : ArgParser :=
  match emptyArgParser.add (ValueArg.ctorNoDefault .VISIBLE "v" "visible" "I am over here!" .tstr) with
  | .ok (p1, _) =>
    (match p1.add (ValueArg.ctorNoDefault .HIDDEN "x" "extra" "hidden arg" .tstr) with
     | .ok (p2, _) => p2
     | .error _ => p1)
  | .error _ => emptyArgParser

/-- C9.  In every well-formed registry, adding an Invisible argument never
changes the help message (with or without `showHidden`): it is appended to
neither visibility list and never contributes a row.  Adding a Hidden
argument never changes the `showHidden = false` help message.  On the
spec's scenario registry, the rendered messages contain exactly the
expected names: `--visible` always, `--extra` and the
`[[Hidden Arguments]]` header only when `showHidden = true`. -/
theorem C9_help_visibility :
    (∀ (p : ArgParser) (a : Argument) (r : ArgParser × Nat) (b : Bool),
        wfParser p = true → a.visibility = .INVISIBLE → p.add a = .ok r →
        r.1.createHelpMessage b = p.createHelpMessage b)
    ∧ (∀ (p : ArgParser) (a : Argument) (r : ArgParser × Nat),
        wfParser p = true → a.visibility = .HIDDEN → p.add a = .ok r →
        r.1.createHelpMessage false = p.createHelpMessage false)
    ∧ (strContains (pC9scen.createHelpMessage false) "--visible" = true
       ∧ strContains (pC9scen.createHelpMessage false) "--extra" = false
       ∧ strContains (pC9scen.createHelpMessage true) "--visible" = true
       ∧ strContains (pC9scen.createHelpMessage true) "--extra" = true
       ∧ strContains (pC9scen.createHelpMessage true) "[[Hidden Arguments]]" = true
       ∧ strContains (pC9scen.createHelpMessage false) "[[Hidden Arguments]]" = false) := by
  refine ⟨?_, ?_, by decide⟩
  · intro p a r b hwf hvis hadd
    obtain ⟨hargs, hv, hh⟩ := add_ok_fields hadd
    rw [hvis] at hv hh
    simp only [reduceCtorEq, if_false] at hv hh
    exact createHelpMessage_extend b hargs hv hh (fun i hi => wf_visIdx hwf hi)
  · intro p a r hwf hvis hadd
    obtain ⟨hargs, hv, hh⟩ := add_ok_fields hadd
    rw [hvis] at hv
    simp only [reduceCtorEq, if_false] at hv
    exact createHelpMessage_false_extend hargs hv
      (fun i hi => wf_visIdx hwf (List.mem_append.mpr (Or.inl hi)))

/-- The C9 witness's invisible-add result. -/
def rC9inv : ArgParser × Nat :=
  match pC9scen.add (ValueArg.ctorNoDefault .INVISIBLE "i" "invisible" "shadow" .tstr) with
  | .ok r => r
  | .error _ => (pC9scen, 0)

/-- The C9 witness's hidden-add result. -/
def rC9hid : ArgParser × Nat :=
  match pC9scen.add (ValueArg.ctorNoDefault .HIDDEN "y" "more" "another hidden" .tstr) with
  | .ok r => r
  | .error _ => (pC9scen, 0)

/-- Witness for C9 on concrete registrations. -/
theorem C9_help_visibility_witness :
    pC9scen.add (ValueArg.ctorNoDefault .INVISIBLE "i" "invisible" "shadow" .tstr) = .ok rC9inv
    ∧ rC9inv.1.createHelpMessage true = pC9scen.createHelpMessage true
    ∧ pC9scen.add (ValueArg.ctorNoDefault .HIDDEN "y" "more" "another hidden" .tstr) = .ok rC9hid
    ∧ rC9hid.1.createHelpMessage false = pC9scen.createHelpMessage false :=
  ⟨by decide,
   C9_help_visibility.1 pC9scen
     (ValueArg.ctorNoDefault .INVISIBLE "i" "invisible" "shadow" .tstr) rC9inv true
     (by decide) (by decide) (by decide),
   by decide,
   C9_help_visibility.2.1 pC9scen
     (ValueArg.ctorNoDefault .HIDDEN "y" "more" "another hidden" .tstr) rC9hid
     (by decide) (by decide) (by decide)⟩
